import Mathlib

/-!
Verification of the Amdahl's Law performance analyzer.

The numeric core (`src/amdahl.py`) is embedded with rationals standing for
Python floats and integers for processor counts; a call that raises
`ValueError` is modelled as `Except.error` carrying the offending argument.
The CLI exit-code logic (`src/cli.py`) is embedded as a pure function from
the parsed arguments and the configuration-loading outcomes to the process
exit code.
-/

namespace Amdahl

/-- Error raised by the core functions, mirroring the two `ValueError`
branches of `calculate_speedup` / `simulate_scaling`. -/
inductive AmdahlError where
  | invalidFraction : ℚ → AmdahlError
  | invalidProcessors : ℤ → AmdahlError
deriving DecidableEq

instance {ε α : Type} [DecidableEq ε] [DecidableEq α] : DecidableEq (Except ε α) := fun a b =>
  match a, b with
  | .ok x, .ok y => if h : x = y then isTrue (by rw [h]) else isFalse (by simp [h])
  | .error x, .error y => if h : x = y then isTrue (by rw [h]) else isFalse (by simp [h])
  | .ok _, .error _ => isFalse (by simp)
  | .error _, .ok _ => isFalse (by simp)

/-- Embedding of `calculate_speedup` from `src/amdahl.py`: validate `f` and
`p`, short-circuit to `1.0` when `f = 1`, otherwise return
`1 / (f + (1 - f) / p)`. -/
def calculate_speedup (f : ℚ) (p : ℤ) : Except AmdahlError ℚ :=
  if ¬(0 ≤ f ∧ f ≤ 1) then .error (.invalidFraction f)
  else if p < 1 then .error (.invalidProcessors p)
  else if f = 1 then .ok 1
  else .ok (1 / (f + (1 - f) / (p : ℚ)))

/-- Embedding of `calculate_efficiency` from `src/amdahl.py`: delegate to
`calculate_speedup` (validation included) and divide by `p`. -/
def calculate_efficiency (f : ℚ) (p : ℤ) : Except AmdahlError ℚ :=
  (calculate_speedup f p).map (fun s => s / (p : ℚ))

/-- Embedding of `calculate_execution_time_ratio` from `src/amdahl.py`:
delegate to `calculate_speedup` and take the reciprocal. -/
def calculate_execution_time_ratio (f : ℚ) (p : ℤ) : Except AmdahlError ℚ :=
  (calculate_speedup f p).map (fun s => 1 / s)

/-- The dictionary returned by `simulate_scaling`, with NumPy arrays
embedded as lists. -/
structure ScalingResult where
  processors : List ℤ
  speedups : List ℚ
  efficiencies : List ℚ
  time_ratios : List ℚ
deriving DecidableEq

/-- Embedding of `simulate_scaling` from `src/amdahl.py`: validate, build
`processors = [1, ..., max_procs]`, compute the speedup vector (a constant
vector of ones when `f = 1`, the vectorized formula otherwise), then derive
efficiencies by elementwise division and time ratios by elementwise
reciprocal. -/
def simulate_scaling (f : ℚ) (max_procs : ℤ) : Except AmdahlError ScalingResult :=
  if ¬(0 ≤ f ∧ f ≤ 1) then .error (.invalidFraction f)
  else if max_procs < 1 then .error (.invalidProcessors max_procs)
  else
    let processors : List ℤ := (List.range max_procs.toNat).map (fun i : ℕ => (i : ℤ) + 1)
    let speedups : List ℚ :=
      if f = 1 then List.replicate max_procs.toNat 1
      else processors.map (fun (p : ℤ) => 1 / (f + (1 - f) / (p : ℚ)))
    let efficiencies : List ℚ :=
      List.zipWith (fun (s : ℚ) (p : ℤ) => s / (p : ℚ)) speedups processors
    let time_ratios : List ℚ := speedups.map (fun s => 1 / s)
    .ok ⟨processors, speedups, efficiencies, time_ratios⟩

/-! ### Helper lemmas about the scalar functions -/

/-- The value `calculate_speedup` returns on valid input. -/
def speedupValue (f : ℚ) (p : ℤ) : ℚ :=
  if f = 1 then 1 else 1 / (f + (1 - f) / (p : ℚ))

lemma calculate_speedup_ok {f : ℚ} {p : ℤ} (hf0 : 0 ≤ f) (hf1 : f ≤ 1) (hp : 1 ≤ p) :
    calculate_speedup f p = .ok (speedupValue f p) := by
  simp only [calculate_speedup, speedupValue]
  rw [if_neg (by simp [hf0, hf1]), if_neg (by omega)]
  by_cases h : f = 1 <;> simp [h]

lemma calculate_efficiency_ok {f : ℚ} {p : ℤ} (hf0 : 0 ≤ f) (hf1 : f ≤ 1) (hp : 1 ≤ p) :
    calculate_efficiency f p = .ok (speedupValue f p / (p : ℚ)) := by
  rw [calculate_efficiency, calculate_speedup_ok hf0 hf1 hp, Except.map]

lemma calculate_execution_time_ratio_ok {f : ℚ} {p : ℤ} (hf0 : 0 ≤ f) (hf1 : f ≤ 1)
    (hp : 1 ≤ p) :
    calculate_execution_time_ratio f p = .ok (1 / speedupValue f p) := by
  rw [calculate_execution_time_ratio, calculate_speedup_ok hf0 hf1 hp, Except.map]

lemma one_le_cast_int {p : ℤ} (hp : 1 ≤ p) : (1 : ℚ) ≤ (p : ℚ) := by exact_mod_cast hp

/-- On valid input the speedup is `p / (1 + f * (p - 1))`, uniformly in `f`
(the `f = 1` short-circuit agrees with this closed form). -/
lemma speedupValue_eq {f : ℚ} {p : ℤ} (hf0 : 0 ≤ f) (hf1 : f ≤ 1) (hp : 1 ≤ p) :
    speedupValue f p = (p : ℚ) / (1 + f * ((p : ℚ) - 1)) := by
  have hp1 : (1 : ℚ) ≤ (p : ℚ) := one_le_cast_int hp
  have hp0 : (p : ℚ) ≠ 0 := by linarith
  have hD : (1 : ℚ) ≤ 1 + f * ((p : ℚ) - 1) := by nlinarith
  have hD0 : 1 + f * ((p : ℚ) - 1) ≠ 0 := by linarith
  rw [speedupValue]
  by_cases h : f = 1
  · subst h
    rw [if_pos rfl]
    rw [show (1 : ℚ) + 1 * ((p : ℚ) - 1) = (p : ℚ) by ring, div_self hp0]
  · rw [if_neg h]
    have hd : f + (1 - f) / (p : ℚ) = (1 + f * ((p : ℚ) - 1)) / (p : ℚ) := by
      field_simp
      ring
    rw [hd, one_div_div]

lemma one_le_amdahl_denom {f : ℚ} {p : ℤ} (hf0 : 0 ≤ f) (hp : 1 ≤ p) :
    (1 : ℚ) ≤ 1 + f * ((p : ℚ) - 1) := by
  have hp1 : (1 : ℚ) ≤ (p : ℚ) := one_le_cast_int hp
  nlinarith

lemma amdahl_denom_le {f : ℚ} {p : ℤ} (hf1 : f ≤ 1) (hp : 1 ≤ p) :
    1 + f * ((p : ℚ) - 1) ≤ (p : ℚ) := by
  have hp1 : (1 : ℚ) ≤ (p : ℚ) := one_le_cast_int hp
  nlinarith

lemma speedupValue_bounds {f : ℚ} {p : ℤ} (hf0 : 0 ≤ f) (hf1 : f ≤ 1) (hp : 1 ≤ p) :
    1 ≤ speedupValue f p ∧ speedupValue f p ≤ (p : ℚ) := by
  have hp1 : (1 : ℚ) ≤ (p : ℚ) := one_le_cast_int hp
  have hD1 : (1 : ℚ) ≤ 1 + f * ((p : ℚ) - 1) := one_le_amdahl_denom hf0 hp
  have hDp : 1 + f * ((p : ℚ) - 1) ≤ (p : ℚ) := amdahl_denom_le hf1 hp
  rw [speedupValue_eq hf0 hf1 hp]
  constructor
  · rw [le_div_iff₀ (by linarith)]
    linarith
  · rw [div_le_iff₀ (by linarith)]
    nlinarith

lemma speedupValue_pos {f : ℚ} {p : ℤ} (hf0 : 0 ≤ f) (hf1 : f ≤ 1) (hp : 1 ≤ p) :
    0 < speedupValue f p :=
  lt_of_lt_of_le one_pos (speedupValue_bounds hf0 hf1 hp).1

/-! ### Helper lemmas about `simulate_scaling` -/

/-- The processor list `[1, ..., n]` produced by `simulate_scaling`. -/
def procRange (n : ℤ) : List ℤ :=
  (List.range n.toNat).map (fun i : ℕ => (i : ℤ) + 1)

lemma procRange_length (n : ℤ) : (procRange n).length = n.toNat := by
  simp [procRange]

lemma procRange_getD {n : ℤ} {i : ℕ} (hi : i < n.toNat) :
    (procRange n).getD i 0 = (i : ℤ) + 1 := by
  have h1 : i < (procRange n).length := by rw [procRange_length]; exact hi
  rw [List.getD_eq_getElem _ _ h1]
  simp only [procRange, List.getElem_map, List.getElem_range]

lemma getD_map_rat {g : ℤ → ℚ} {l : List ℤ} {i : ℕ} (hi : i < l.length) :
    (l.map g).getD i 0 = g (l.getD i 0) := by
  have h1 : i < (l.map g).length := by simpa using hi
  rw [List.getD_eq_getElem _ _ h1, List.getElem_map, List.getD_eq_getElem _ _ hi]

/-- On valid input `simulate_scaling` returns lists that are images of the
processor range under the three scalar formulas. -/
lemma simulate_scaling_ok {f : ℚ} {n : ℤ} (hf0 : 0 ≤ f) (hf1 : f ≤ 1) (hn : 1 ≤ n) :
    simulate_scaling f n =
      .ok ⟨procRange n,
           (procRange n).map (fun p => speedupValue f p),
           (procRange n).map (fun p => speedupValue f p / (p : ℚ)),
           (procRange n).map (fun p => 1 / speedupValue f p)⟩ := by
  have heff : List.zipWith (fun (s : ℚ) (p : ℤ) => s / (p : ℚ))
      ((procRange n).map (fun p => speedupValue f p)) (procRange n)
      = (procRange n).map (fun p => speedupValue f p / (p : ℚ)) := by
    rw [List.zipWith_map_left]
    exact List.zipWith_same _ _
  have hratio : ((procRange n).map (fun p => speedupValue f p)).map (fun s => 1 / s)
      = (procRange n).map (fun p => 1 / speedupValue f p) := by
    rw [List.map_map]
    rfl
  by_cases h : f = 1
  · subst h
    have hrep : List.replicate (Int.toNat n) (1 : ℚ)
        = (procRange n).map (fun p => speedupValue 1 p) := by
      symm
      rw [List.eq_replicate_iff]
      refine ⟨by simp [procRange_length], ?_⟩
      intro b hb
      rcases List.mem_map.mp hb with ⟨p, _, hp⟩
      rw [← hp]
      simp [speedupValue]
    rw [simulate_scaling, if_neg (by norm_num), if_neg (by omega)]
    simp only [procRange] at *
    simp only [if_true]
    rw [hrep, heff, hratio]
  · have hspeed : (procRange n).map (fun (p : ℤ) => 1 / (f + (1 - f) / (p : ℚ)))
        = (procRange n).map (fun p => speedupValue f p) := by
      apply List.map_congr_left
      intro p _
      rw [speedupValue, if_neg h]
    rw [simulate_scaling, if_neg (by simp [hf0, hf1]), if_neg (by omega)]
    simp only [procRange] at *
    rw [if_neg h, hspeed, heff, hratio]

/-! ### Monotonicity and bound lemmas in the closed `p / (1 + f * (p - 1))` form -/

lemma speedupValue_strictMono {f : ℚ} {p q : ℤ} (hf0 : 0 ≤ f) (hf1 : f < 1)
    (hp : 1 ≤ p) (hpq : p < q) : speedupValue f p < speedupValue f q := by
  have hq : 1 ≤ q := by omega
  have hp1 : (1 : ℚ) ≤ (p : ℚ) := one_le_cast_int hp
  have hq1 : (p : ℚ) < (q : ℚ) := by exact_mod_cast hpq
  have hDp : (0 : ℚ) < 1 + f * ((p : ℚ) - 1) := by nlinarith
  have hDq : (0 : ℚ) < 1 + f * ((q : ℚ) - 1) := by nlinarith
  rw [speedupValue_eq hf0 hf1.le hp, speedupValue_eq hf0 hf1.le hq,
    div_lt_div_iff₀ hDp hDq]
  nlinarith

lemma efficiencyValue_antitone {f : ℚ} {p q : ℤ} (hf0 : 0 ≤ f) (hf1 : f ≤ 1)
    (hp : 1 ≤ p) (hpq : p ≤ q) :
    speedupValue f q / (q : ℚ) ≤ speedupValue f p / (p : ℚ) := by
  have hq : 1 ≤ q := by omega
  have hp1 : (1 : ℚ) ≤ (p : ℚ) := one_le_cast_int hp
  have hq1 : (p : ℚ) ≤ (q : ℚ) := by exact_mod_cast hpq
  have hDp : (0 : ℚ) < 1 + f * ((p : ℚ) - 1) := by nlinarith
  have hDq : (0 : ℚ) < 1 + f * ((q : ℚ) - 1) := by nlinarith
  have hep : speedupValue f p / (p : ℚ) = 1 / (1 + f * ((p : ℚ) - 1)) := by
    rw [speedupValue_eq hf0 hf1 hp, div_div, mul_comm,
      div_mul_cancel_left₀ (by linarith : (p : ℚ) ≠ 0)]
    rw [one_div]
  have heq : speedupValue f q / (q : ℚ) = 1 / (1 + f * ((q : ℚ) - 1)) := by
    rw [speedupValue_eq hf0 hf1 hq, div_div, mul_comm,
      div_mul_cancel_left₀ (by linarith : (q : ℚ) ≠ 0)]
    rw [one_div]
  rw [hep, heq]
  apply one_div_le_one_div_of_le hDp
  nlinarith

lemma speedupValue_mono {f : ℚ} {p q : ℤ} (hf0 : 0 ≤ f) (hf1 : f ≤ 1)
    (hp : 1 ≤ p) (hpq : p ≤ q) : speedupValue f p ≤ speedupValue f q := by
  rcases eq_or_lt_of_le hf1 with h | h
  · subst h
    simp [speedupValue]
  · rcases eq_or_lt_of_le hpq with h2 | h2
    · rw [h2]
    · exact (speedupValue_strictMono hf0 h hp h2).le

lemma timeRatioValue_antitone {f : ℚ} {p q : ℤ} (hf0 : 0 ≤ f) (hf1 : f ≤ 1)
    (hp : 1 ≤ p) (hpq : p ≤ q) :
    1 / speedupValue f q ≤ 1 / speedupValue f p :=
  one_div_le_one_div_of_le (speedupValue_pos hf0 hf1 hp)
    (speedupValue_mono hf0 hf1 hp hpq)

lemma efficiencyValue_bounds {f : ℚ} {p : ℤ} (hf0 : 0 ≤ f) (hf1 : f ≤ 1) (hp : 1 ≤ p) :
    0 < speedupValue f p / (p : ℚ) ∧ speedupValue f p / (p : ℚ) ≤ 1 := by
  have hp1 : (1 : ℚ) ≤ (p : ℚ) := one_le_cast_int hp
  have hp0 : (0 : ℚ) < (p : ℚ) := by linarith
  obtain ⟨h1, h2⟩ := speedupValue_bounds hf0 hf1 hp
  exact ⟨div_pos (by linarith) hp0, (div_le_one hp0).mpr h2⟩

lemma timeRatioValue_bounds {f : ℚ} {p : ℤ} (hf0 : 0 ≤ f) (hf1 : f ≤ 1) (hp : 1 ≤ p) :
    1 / (p : ℚ) ≤ 1 / speedupValue f p ∧ 1 / speedupValue f p ≤ 1 := by
  have hs0 : 0 < speedupValue f p := speedupValue_pos hf0 hf1 hp
  obtain ⟨h1, h2⟩ := speedupValue_bounds hf0 hf1 hp
  constructor
  · exact one_div_le_one_div_of_le hs0 h2
  · have := one_div_le_one_div_of_le one_pos h1
    simpa using this

/-! ### CLI exit-code model (`src/cli.py` with validators from `src/utils.py`)

The CLI's outward behaviour relevant to exit codes is a pure function of the
parsed arguments and of what configuration loading would yield, so those
outcomes are passed in explicitly.  File, YAML and rendering side effects are
abstracted into the outcome values. -/

/-- Outcome of one `load_config` attempt: a parsed mapping (with the keys
the CLI reads, each possibly absent), a `FileNotFoundError`, or any other
loading failure such as invalid YAML. -/
inductive LoadResult where
  | found : Option ℚ → Option ℤ → Option Bool → LoadResult
  | fileNotFound : LoadResult
  | invalid : LoadResult
deriving DecidableEq

/-- The parsed command-line arguments the exit-code logic depends on.
`config` records whether `--config` was passed. -/
structure CliArgs where
  fraction : Option ℚ
  max_procs : Option ℤ
  config : Bool
  no_plots : Bool
deriving DecidableEq

/-- Environment of one CLI run: what loading the explicitly named config
file would yield, what loading the default `config.yaml` would yield, and
whether the user interrupts the run. -/
structure CliEnv where
  explicitLoad : LoadResult
  defaultLoad : LoadResult
  interrupted : Bool
deriving DecidableEq

/-- Embedding of `get_config_values` from `src/cli.py`, returning the
resolved `(fraction, max_procs, generate_plots)` triple or the process exit
code the call forces.  With `--config`, a missing or unreadable file calls
`sys.exit(1)`.  Without it, a missing default file is ignored and an
unreadable one raises, reaching `main`'s generic handler, which also exits
with 1.  A fraction supplied neither on the command line nor in the config
goes through `argparse`'s `parser.error`, which exits with status 2. -/
def get_config_values (args : CliArgs) (env : CliEnv) : Except ℕ (ℚ × ℤ × Bool) :=
  match (if args.config then
           match env.explicitLoad with
           | .found fr mp gp => Except.ok (fr, mp, gp)
           | .fileNotFound => Except.error 1
           | .invalid => Except.error 1
         else
           match env.defaultLoad with
           | .found fr mp gp => Except.ok (fr, mp, gp)
           | .fileNotFound => Except.ok (none, none, none)
           | .invalid => Except.error 1) with
  | .error c => .error c
  | .ok (cfr, cmp, cgp) =>
    match args.fraction.orElse (fun _ => cfr) with
    | none => .error 2
    | some fr =>
      let mp := (args.max_procs.orElse (fun _ => cmp)).getD 100
      let gp := if args.no_plots then false else cgp.getD true
      .ok (fr, mp, gp)

/-- Embedding of `main` from `src/cli.py` as its exit code: 130 when a
`KeyboardInterrupt` arrives inside the guarded block, the code forced by
`get_config_values` when resolution fails, 1 when `validate_fraction` or
`validate_processors` raises `ValueError` on the resolved values, and 0 on
a completed run. -/
def mainExitCode (args : CliArgs) (env : CliEnv) : ℕ :=
  if env.interrupted then 130
  else
    match get_config_values args env with
    | .error c => c
    | .ok (fr, mp, _) =>
      if ¬(0 ≤ fr ∧ fr ≤ 1) then 1
      else if mp < 1 then 1
      else 0

/-- The constant-ones vector is the image of the processor range under the
speedup formula at `f = 1`. -/
lemma replicate_one_eq_map (n : ℤ) :
    List.replicate n.toNat (1 : ℚ) = (procRange n).map (fun p => speedupValue 1 p) := by
  symm
  rw [List.eq_replicate_iff]
  refine ⟨by simp [procRange_length], ?_⟩
  intro b hb
  rcases List.mem_map.mp hb with ⟨p, _, hp⟩
  rw [← hp]
  simp [speedupValue]

/-! ### The claims -/

/-- C1: for every `f` with `0 ≤ f ≤ 1` and every integer `p ≥ 1`,
`calculate_speedup f p` returns exactly `1.0` when `f = 1` (the
short-circuit branch) and `1 / (f + (1 - f) / p)` otherwise. -/
theorem speedup_formula (f : ℚ) (p : ℤ) (hf0 : 0 ≤ f) (hf1 : f ≤ 1) (hp : 1 ≤ p) :
    (f = 1 → calculate_speedup f p = Except.ok 1) ∧
    (f ≠ 1 → calculate_speedup f p = Except.ok (1 / (f + (1 - f) / (p : ℚ)))) := by
  constructor
  · intro h
    rw [calculate_speedup_ok hf0 hf1 hp, speedupValue, if_pos h]
  · intro h
    rw [calculate_speedup_ok hf0 hf1 hp, speedupValue, if_neg h]

/-- Witness for C1 at `f = 1/2`, `p = 2`. -/
theorem speedup_formula_witness :
    calculate_speedup (1/2) 2 = Except.ok (1 / ((1:ℚ)/2 + (1 - 1/2) / ((2:ℤ) : ℚ))) :=
  (speedup_formula (1/2) 2 (by norm_num) (by norm_num) (by norm_num)).2 (by norm_num)

/-- C5: for every `f` with `0 ≤ f ≤ 1`, `calculate_speedup f 1` returns
exactly `1.0`. -/
theorem speedup_single_processor (f : ℚ) (hf0 : 0 ≤ f) (hf1 : f ≤ 1) :
    calculate_speedup f 1 = Except.ok 1 := by
  rw [calculate_speedup_ok hf0 hf1 le_rfl, speedupValue_eq hf0 hf1 le_rfl]
  norm_num

/-- Witness for C5 at `f = 1/3`. -/
theorem speedup_single_processor_witness :
    calculate_speedup (1/3) 1 = Except.ok 1 :=
  speedup_single_processor (1/3) (by norm_num) (by norm_num)

/-- C6: for every integer `p ≥ 1`, `calculate_speedup 1 p` returns exactly
`1.0`, and any successful `simulate_scaling 1 p` has a speedup vector that
is a constant vector of ones. -/
theorem fully_sequential_speedup (p : ℤ) (hp : 1 ≤ p) :
    calculate_speedup 1 p = Except.ok 1 ∧
    (∀ r, simulate_scaling 1 p = Except.ok r →
      r.speedups = List.replicate p.toNat 1) := by
  constructor
  · rw [calculate_speedup_ok (by norm_num) le_rfl hp, speedupValue, if_pos rfl]
  · intro r hr
    rw [simulate_scaling_ok (by norm_num) le_rfl hp] at hr
    injection hr with hr
    rw [← hr, replicate_one_eq_map]

/-- Witness for C6 at `p = 3`. -/
theorem fully_sequential_speedup_witness :
    calculate_speedup 1 3 = Except.ok 1 :=
  (fully_sequential_speedup 3 (by norm_num)).1

/-- C7: for `f = 0` and every integer `p ≥ 1`, the speedup equals `p` and
the efficiency equals `1.0`. -/
theorem fully_parallel_speedup (p : ℤ) (hp : 1 ≤ p) :
    calculate_speedup 0 p = Except.ok ((p : ℤ) : ℚ) ∧
    calculate_efficiency 0 p = Except.ok 1 := by
  have hp0 : ((p : ℤ) : ℚ) ≠ 0 := by
    have := one_le_cast_int hp
    linarith
  have h1 : speedupValue 0 p = ((p : ℤ) : ℚ) := by
    rw [speedupValue_eq le_rfl zero_le_one hp]
    norm_num
  refine ⟨?_, ?_⟩
  · rw [calculate_speedup_ok le_rfl zero_le_one hp, h1]
  · rw [calculate_efficiency_ok le_rfl zero_le_one hp, h1, div_self hp0]

/-- Witness for C7 at `p = 4`. -/
theorem fully_parallel_speedup_witness :
    calculate_speedup 0 4 = Except.ok (((4:ℤ) : ℤ) : ℚ) ∧
    calculate_efficiency 0 4 = Except.ok 1 :=
  fully_parallel_speedup 4 (by norm_num)

/-- C8: on valid input, the efficiency is the speedup divided by `p` and
the execution time ratio is the reciprocal of the speedup. -/
theorem efficiency_time_ratio_derived (f : ℚ) (p : ℤ) (hf0 : 0 ≤ f) (hf1 : f ≤ 1)
    (hp : 1 ≤ p) (s : ℚ) (hs : calculate_speedup f p = Except.ok s) :
    calculate_efficiency f p = Except.ok (s / (p : ℚ)) ∧
    calculate_execution_time_ratio f p = Except.ok (1 / s) := by
  rw [calculate_speedup_ok hf0 hf1 hp] at hs
  injection hs with hs
  rw [← hs]
  exact ⟨calculate_efficiency_ok hf0 hf1 hp, calculate_execution_time_ratio_ok hf0 hf1 hp⟩

/-- Witness for C8 at `f = 1/2`, `p = 2`, where the speedup is `4/3`. -/
theorem efficiency_time_ratio_derived_witness :
    calculate_efficiency (1/2) 2 = Except.ok ((4/3 : ℚ) / ((2:ℤ) : ℚ)) ∧
    calculate_execution_time_ratio (1/2) 2 = Except.ok (1 / (4/3 : ℚ)) :=
  efficiency_time_ratio_derived (1/2) 2 (by norm_num) (by norm_num) (by norm_num) (4/3)
    (by norm_num [calculate_speedup])

/-- C3: `calculate_speedup` and `simulate_scaling` fail (returning an error
and no result) exactly when `f ∉ [0, 1]` or the processor argument is
below 1; in particular the boundary inputs `f = -0.1`, `f = 1.1`, `p = 0`
and `p = -1` all fail. -/
theorem invalid_argument_iff (f : ℚ) (p : ℤ) :
    ((∃ e, calculate_speedup f p = Except.error e) ↔ (¬(0 ≤ f ∧ f ≤ 1) ∨ p < 1)) ∧
    ((∃ e, simulate_scaling f p = Except.error e) ↔ (¬(0 ≤ f ∧ f ≤ 1) ∨ p < 1)) ∧
    (∃ e, calculate_speedup (-(1/10)) 10 = Except.error e) ∧
    (∃ e, calculate_speedup (11/10) 10 = Except.error e) ∧
    (∃ e, calculate_speedup (1/2) 0 = Except.error e) ∧
    (∃ e, calculate_speedup (1/2) (-1) = Except.error e) := by
  have herr : ∀ (g : ℚ) (q : ℤ), (¬(0 ≤ g ∧ g ≤ 1) ∨ q < 1) →
      ∃ e, calculate_speedup g q = Except.error e := by
    intro g q h
    rw [calculate_speedup]
    by_cases h1 : ¬(0 ≤ g ∧ g ≤ 1)
    · exact ⟨_, by rw [if_pos h1]⟩
    · have h2 : q < 1 := h.resolve_left (by tauto)
      exact ⟨_, by rw [if_neg h1, if_pos h2]⟩
  refine ⟨⟨?_, herr f p⟩, ⟨?_, ?_⟩, herr _ _ (Or.inl (by norm_num)),
    herr _ _ (Or.inl (by norm_num)), herr _ _ (Or.inr (by norm_num)),
    herr _ _ (Or.inr (by norm_num))⟩
  · rintro ⟨e, he⟩
    by_contra hc
    push_neg at hc
    rw [calculate_speedup_ok hc.1.1 hc.1.2 (by omega)] at he
    exact absurd he (by simp)
  · rintro ⟨e, he⟩
    by_contra hc
    push_neg at hc
    rw [simulate_scaling_ok hc.1.1 hc.1.2 (by omega)] at he
    exact absurd he (by simp)
  · intro h
    rw [simulate_scaling]
    by_cases h1 : ¬(0 ≤ f ∧ f ≤ 1)
    · exact ⟨_, by rw [if_pos h1]⟩
    · have h2 : p < 1 := h.resolve_left (by tauto)
      exact ⟨_, by rw [if_neg h1, if_pos h2]⟩

/-- C4: for fixed `f` with `0 ≤ f < 1`, the speedup is strictly increasing
in the processor count, while the efficiency and the execution time ratio
are non-increasing. -/
theorem monotone_in_processors (f : ℚ) (p q : ℤ) (hf0 : 0 ≤ f) (hf1 : f < 1)
    (hp : 1 ≤ p) (hpq : p < q) (sp sq ep eq' tp tq : ℚ)
    (hsp : calculate_speedup f p = Except.ok sp)
    (hsq : calculate_speedup f q = Except.ok sq)
    (hep : calculate_efficiency f p = Except.ok ep)
    (heq : calculate_efficiency f q = Except.ok eq')
    (htp : calculate_execution_time_ratio f p = Except.ok tp)
    (htq : calculate_execution_time_ratio f q = Except.ok tq) :
    sp < sq ∧ eq' ≤ ep ∧ tq ≤ tp := by
  have hq : 1 ≤ q := by omega
  have hf1' : f ≤ 1 := hf1.le
  rw [calculate_speedup_ok hf0 hf1' hp] at hsp
  rw [calculate_speedup_ok hf0 hf1' hq] at hsq
  rw [calculate_efficiency_ok hf0 hf1' hp] at hep
  rw [calculate_efficiency_ok hf0 hf1' hq] at heq
  rw [calculate_execution_time_ratio_ok hf0 hf1' hp] at htp
  rw [calculate_execution_time_ratio_ok hf0 hf1' hq] at htq
  injection hsp with hsp
  injection hsq with hsq
  injection hep with hep
  injection heq with heq
  injection htp with htp
  injection htq with htq
  subst hsp hsq hep heq htp htq
  exact ⟨speedupValue_strictMono hf0 hf1 hp hpq,
    efficiencyValue_antitone hf0 hf1' hp hpq.le,
    timeRatioValue_antitone hf0 hf1' hp hpq.le⟩

/-- Witness for C4 at `f = 0`, `p = 1`, `q = 2`. -/
theorem monotone_in_processors_witness :
    (1 : ℚ) < 2 ∧ (1 : ℚ) ≤ 1 ∧ (1/2 : ℚ) ≤ 1 :=
  monotone_in_processors 0 1 2 le_rfl (by norm_num) le_rfl (by norm_num) 1 2 1 1 1 (1/2)
    (by norm_num [calculate_speedup]) (by norm_num [calculate_speedup])
    (by norm_num [calculate_efficiency, calculate_speedup, Except.map])
    (by norm_num [calculate_efficiency, calculate_speedup, Except.map])
    (by norm_num [calculate_execution_time_ratio, calculate_speedup, Except.map])
    (by norm_num [calculate_execution_time_ratio, calculate_speedup, Except.map])

/-- C10: on valid input the speedup lies in `[1, p]`, the efficiency in
`(0, 1]` and the execution time ratio in `[1/p, 1]`, and the elements of
every successful `simulate_scaling` result satisfy the same bounds at
their own processor counts. -/
theorem range_invariants (f : ℚ) (p : ℤ) (hf0 : 0 ≤ f) (hf1 : f ≤ 1) (hp : 1 ≤ p) :
    (∀ s, calculate_speedup f p = Except.ok s → 1 ≤ s ∧ s ≤ (p : ℚ)) ∧
    (∀ e, calculate_efficiency f p = Except.ok e → 0 < e ∧ e ≤ 1) ∧
    (∀ t, calculate_execution_time_ratio f p = Except.ok t →
      1 / (p : ℚ) ≤ t ∧ t ≤ 1) ∧
    (∀ r, simulate_scaling f p = Except.ok r → ∀ i : ℕ, i < p.toNat →
      (1 ≤ r.speedups.getD i 0 ∧
        r.speedups.getD i 0 ≤ ((r.processors.getD i 0 : ℤ) : ℚ)) ∧
      (0 < r.efficiencies.getD i 0 ∧ r.efficiencies.getD i 0 ≤ 1) ∧
      (1 / ((r.processors.getD i 0 : ℤ) : ℚ) ≤ r.time_ratios.getD i 0 ∧
        r.time_ratios.getD i 0 ≤ 1)) := by
  refine ⟨?_, ?_, ?_, ?_⟩
  · intro s hs
    rw [calculate_speedup_ok hf0 hf1 hp] at hs
    injection hs with hs
    rw [← hs]
    exact speedupValue_bounds hf0 hf1 hp
  · intro e he
    rw [calculate_efficiency_ok hf0 hf1 hp] at he
    injection he with he
    rw [← he]
    exact efficiencyValue_bounds hf0 hf1 hp
  · intro t ht
    rw [calculate_execution_time_ratio_ok hf0 hf1 hp] at ht
    injection ht with ht
    rw [← ht]
    exact timeRatioValue_bounds hf0 hf1 hp
  · intro r hr i hi
    rw [simulate_scaling_ok hf0 hf1 hp] at hr
    injection hr with hr
    rw [← hr]
    have hlen : i < (procRange p).length := by
      rw [procRange_length]
      exact hi
    have hproc : (procRange p).getD i 0 = (i : ℤ) + 1 := procRange_getD hi
    have hpi : (1 : ℤ) ≤ (i : ℤ) + 1 := by omega
    dsimp only
    simp only [getD_map_rat hlen, hproc]
    exact ⟨speedupValue_bounds hf0 hf1 hpi, efficiencyValue_bounds hf0 hf1 hpi,
      timeRatioValue_bounds hf0 hf1 hpi⟩

/-- Witness for C10 at `f = 1/2`, `p = 2`, where the speedup is `4/3`. -/
theorem range_invariants_witness :
    1 ≤ (4/3 : ℚ) ∧ (4/3 : ℚ) ≤ ((2 : ℤ) : ℚ) :=
  (range_invariants (1/2) 2 (by norm_num) (by norm_num) (by norm_num)).1 (4/3)
    (by norm_num [calculate_speedup])

/-- C2: a successful `simulate_scaling f n` yields four sequences of
length exactly `n`, with first processor count 1 and last `n`, and every
element agrees with the corresponding scalar call within `1e-10` absolute
tolerance. -/
theorem simulate_scaling_refines_scalar (f : ℚ) (n : ℤ) (hf0 : 0 ≤ f) (hf1 : f ≤ 1)
    (hn : 1 ≤ n) (r : ScalingResult) (hr : simulate_scaling f n = Except.ok r) :
    r.processors.length = n.toNat ∧ r.speedups.length = n.toNat ∧
    r.efficiencies.length = n.toNat ∧ r.time_ratios.length = n.toNat ∧
    r.processors.getD 0 0 = 1 ∧ r.processors.getD (n.toNat - 1) 0 = n ∧
    (∀ i : ℕ, i < n.toNat →
      (∃ s, calculate_speedup f (r.processors.getD i 0) = Except.ok s ∧
        |r.speedups.getD i 0 - s| ≤ 1 / 10 ^ 10) ∧
      (∃ e, calculate_efficiency f (r.processors.getD i 0) = Except.ok e ∧
        |r.efficiencies.getD i 0 - e| ≤ 1 / 10 ^ 10) ∧
      (∃ t, calculate_execution_time_ratio f (r.processors.getD i 0) = Except.ok t ∧
        |r.time_ratios.getD i 0 - t| ≤ 1 / 10 ^ 10)) := by
  rw [simulate_scaling_ok hf0 hf1 hn] at hr
  injection hr with hr
  rw [← hr]
  have hlen0 : 0 < n.toNat := by omega
  have hlast : n.toNat - 1 < n.toNat := by omega
  refine ⟨by simp [procRange_length], by simp [procRange_length],
    by simp [procRange_length], by simp [procRange_length], ?_, ?_, ?_⟩
  · rw [procRange_getD hlen0]
    norm_num
  · rw [procRange_getD hlast]
    omega
  · intro i hi
    have hlen : i < (procRange n).length := by
      rw [procRange_length]
      exact hi
    have hproc : (procRange n).getD i 0 = (i : ℤ) + 1 := procRange_getD hi
    have hpi : (1 : ℤ) ≤ (i : ℤ) + 1 := by omega
    dsimp only
    simp only [getD_map_rat hlen, hproc]
    have htol : (0 : ℚ) ≤ 1 / 10 ^ 10 := by positivity
    refine ⟨⟨speedupValue f ((i : ℤ) + 1), calculate_speedup_ok hf0 hf1 hpi, ?_⟩,
      ⟨speedupValue f ((i : ℤ) + 1) / (((i : ℤ) + 1 : ℤ) : ℚ),
        calculate_efficiency_ok hf0 hf1 hpi, ?_⟩,
      ⟨1 / speedupValue f ((i : ℤ) + 1),
        calculate_execution_time_ratio_ok hf0 hf1 hpi, ?_⟩⟩
    · rw [sub_self, abs_zero]
      exact htol
    · rw [sub_self, abs_zero]
      exact htol
    · rw [sub_self, abs_zero]
      exact htol

/-- Witness for C2 at `f = 1/2`, `n = 1`: the first speedup entry agrees
with the scalar call. -/
theorem simulate_scaling_refines_scalar_witness :
    ∃ s, calculate_speedup (1/2) (([(1 : ℤ)]).getD 0 0) = Except.ok s ∧
      |([(1 : ℚ)]).getD 0 0 - s| ≤ 1 / 10 ^ 10 :=
  ((simulate_scaling_refines_scalar (1/2) 1 (by norm_num) (by norm_num) (by norm_num)
    ⟨[1], [1], [1], [1]⟩ (by
      rw [simulate_scaling_ok (by norm_num) (by norm_num) (by norm_num)]
      norm_num [procRange, List.range_succ, speedupValue])).2.2.2.2.2.2 0
        (by norm_num)).1

/-- C9 counterexample: when the sequential fraction is supplied neither on
the command line nor in a config file, `main` goes through `argparse`'s
`parser.error`, whose `SystemExit(2)` is not caught by any handler, so the
process exits with code 2, not 1. -/
theorem cli_missing_fraction_exits_two :
    mainExitCode ⟨none, none, false, false⟩
      ⟨LoadResult.fileNotFound, LoadResult.fileNotFound, false⟩ = 2 ∧
    mainExitCode ⟨none, none, false, false⟩
      ⟨LoadResult.fileNotFound, LoadResult.fileNotFound, false⟩ ≠ 1 := by
  constructor <;> decide

/-- C9 (amended): the CLI exits with code 130 on user interrupt; with code
1 on config-loading failure and on validation failure of the resolved
values; with code 2 — not 1 — exactly when the sequential fraction is
supplied neither on the command line nor in the config file; and with code
0 on success. -/
theorem cli_exit_codes (args : CliArgs) (env : CliEnv) :
    (env.interrupted = true → mainExitCode args env = 130) ∧
    (env.interrupted = false →
      (((args.config = true ∧ (env.explicitLoad = LoadResult.fileNotFound ∨
          env.explicitLoad = LoadResult.invalid)) ∨
        (args.config = false ∧ env.defaultLoad = LoadResult.invalid)) →
          mainExitCode args env = 1) ∧
      (∀ fr mp gp, get_config_values args env = Except.ok (fr, mp, gp) →
        ((¬(0 ≤ fr ∧ fr ≤ 1) ∨ mp < 1) → mainExitCode args env = 1) ∧
        (0 ≤ fr → fr ≤ 1 → 1 ≤ mp → mainExitCode args env = 0)) ∧
      (get_config_values args env = Except.error 2 ↔
        (args.fraction = none ∧
          ((args.config = true ∧
             ∃ mp gp, env.explicitLoad = LoadResult.found none mp gp) ∨
           (args.config = false ∧ (env.defaultLoad = LoadResult.fileNotFound ∨
             ∃ mp gp, env.defaultLoad = LoadResult.found none mp gp)))))) := by
  obtain ⟨afr, amp, acfg, anp⟩ := args
  obtain ⟨eload, dload, intr⟩ := env
  constructor
  · intro h
    rw [mainExitCode, if_pos h]
  · intro h
    subst h
    refine ⟨?_, ?_, ?_⟩
    · rintro (⟨hc, hl | hl⟩ | ⟨hc, hl⟩) <;> subst hc <;> subst hl <;>
        simp [mainExitCode, get_config_values]
    · intro fr mp gp hok
      constructor
      · intro hbad
        simp only [mainExitCode, Bool.false_eq_true, if_false, hok]
        rcases hbad with hb | hb
        · rw [if_pos hb]
        · by_cases hfr : ¬(0 ≤ fr ∧ fr ≤ 1)
          · rw [if_pos hfr]
          · rw [if_neg hfr, if_pos hb]
      · intro h0 h1 hmp
        simp only [mainExitCode, Bool.false_eq_true, if_false, hok]
        rw [if_neg (not_not_intro ⟨h0, h1⟩), if_neg (by omega)]
    · cases acfg
      · cases dload with
        | found cfr cmp cgp =>
          cases afr <;> cases cfr <;>
            simp [get_config_values, Option.orElse]
        | fileNotFound => cases afr <;> simp [get_config_values, Option.orElse]
        | invalid => cases afr <;> simp [get_config_values, Option.orElse]
      · cases eload with
        | found cfr cmp cgp =>
          cases afr <;> cases cfr <;>
            simp [get_config_values, Option.orElse]
        | fileNotFound => cases afr <;> simp [get_config_values, Option.orElse]
        | invalid => cases afr <;> simp [get_config_values, Option.orElse]

/-- Witness for the amended C9: an interrupted run exits with code 130. -/
theorem cli_exit_codes_witness :
    mainExitCode ⟨some (1/2), none, false, false⟩
      ⟨LoadResult.fileNotFound, LoadResult.fileNotFound, true⟩ = 130 :=
  (cli_exit_codes ⟨some (1/2), none, false, false⟩
    ⟨LoadResult.fileNotFound, LoadResult.fileNotFound, true⟩).1 rfl

end Amdahl
